import Mathlib

/-!
Verification of the glucose-log backtest core (src/app.js).

The backtest evaluator, the two alert policies and the derived metrics are
embedded over the rationals (every JavaScript float appearing in these code
paths is a finite value, and only field operations and comparisons occur).
The synthetic trace generator and the absorption curve use transcendental
functions and are embedded over the reals, with the ambient random source
modelled as an oracle `rng : ℕ → ℝ` indexed by draw order and `Date.now()`
modelled as the parameter `startMs`.
-/

/-- Model of one element of the backtest series: `{ tMs, bg }`. -/
structure SamplePoint where
  tMs : ℚ
  bg : ℚ
deriving DecidableEq

/-- Default sample used for out-of-range list access. -/
def dpt : SamplePoint := ⟨0, 0⟩

/-- Alert kind, mirroring the strings "NONE" / "HYPO" / "HYPER". -/
inductive Risk where
  | NONE
  | HYPO
  | HYPER
deriving DecidableEq

/-- State of the improved policy carried across loop iterations:
`active`, `persist`, `cooldownUntilMs` in `backtest` (src/app.js:459-461). -/
structure ImpState where
  active : Risk
  persist : ℕ
  cooldownUntilMs : ℚ
deriving DecidableEq

/-- Initial improved-policy state: `active = "NONE"`, `persist = 0`,
`cooldownUntilMs = 0`. -/
def impInit : ImpState := ⟨Risk.NONE, 0, 0⟩

/-- slopePerMin from src/app.js:438-445: endpoint slope over the trailing
`k`-sample window, `start = max(0, i - k + 1)` (ℕ subtraction), slope `0`
when the elapsed time is zero or negative. -/
def slopePerMin (series : List SamplePoint) (i k : ℕ) : ℚ :=
  let start := i - (k - 1)
  let dt := ((series.getD i dpt).tMs - (series.getD start dpt).tMs) / 60000
  if dt ≤ 0 then 0 else ((series.getD i dpt).bg - (series.getD start dpt).bg) / dt

/-- projectedBg from src/app.js:447-450. -/
def projectedBg (series : List SamplePoint) (horizonMin : ℚ) (i : ℕ) : ℚ :=
  (series.getD i dpt).bg + slopePerMin series i 6 * horizonMin

/-- Baseline HYPO decision, src/app.js:477. -/
def baseHypoAlert (series : List SamplePoint) (low horizonMin : ℚ) (i : ℕ) : Bool :=
  decide ((series.getD i dpt).bg < low) || decide (projectedBg series horizonMin i < low)

/-- Baseline HYPER decision, src/app.js:478. -/
def baseHyperAlert (series : List SamplePoint) (high horizonMin : ℚ) (i : ℕ) : Bool :=
  decide (high < (series.getD i dpt).bg) || decide (high < projectedBg series horizonMin i)

/-- Baseline combined alert, src/app.js:481. -/
def baseAlertOf (series : List SamplePoint) (low high horizonMin : ℚ) (i : ℕ) : Bool :=
  baseHypoAlert series low horizonMin i || baseHyperAlert series high horizonMin i

/-- Three-point moving average of src/app.js:490-493. -/
def smoothBg (series : List SamplePoint) (i : ℕ) : ℚ :=
  ((series.getD i dpt).bg + (series.getD (i - 1) dpt).bg + (series.getD (i - 2) dpt).bg) / 3

/-- Smoothed projection, src/app.js:496-497. -/
def smoothProj (series : List SamplePoint) (horizonMin : ℚ) (i : ℕ) : ℚ :=
  smoothBg series i + slopePerMin series i 6 * horizonMin

/-- Raw risk classification of the improved policy, src/app.js:499-501
(HYPO takes priority over HYPER). -/
def rawRisk (series : List SamplePoint) (low high horizonMin : ℚ) (i : ℕ) : Risk :=
  if smoothBg series i < low ∨ smoothProj series horizonMin i < low then Risk.HYPO
  else if high < smoothBg series i ∨ high < smoothProj series horizonMin i then Risk.HYPER
  else Risk.NONE

/-- One iteration of the improved policy, src/app.js:503-525: the persistence
update (the source ternary yields `persist + 1` in both branches), the strict
cooldown test, the firing rule and the two sequential hysteresis clears.
Returns the successor state and whether an alert fired this step. -/
def impStep (series : List SamplePoint) (low high horizonMin : ℚ) (st : ImpState) (i : ℕ) :
    ImpState × Bool :=
  let now := series.getD i dpt
  let r := rawRisk series low high horizonMin i
  let persist1 := if r ≠ Risk.NONE then st.persist + 1 else 0
  let fire : Bool := decide (¬ now.tMs < st.cooldownUntilMs ∧ r ≠ Risk.NONE ∧ 2 ≤ persist1)
  let active1 := if fire then r else st.active
  let cooldown1 := if fire then now.tMs + 60 * 60000 else st.cooldownUntilMs
  let active2 :=
    if active1 = Risk.HYPO ∧ low + 5 < smoothProj series horizonMin i then Risk.NONE else active1
  let active3 :=
    if active2 = Risk.HYPER ∧ smoothProj series horizonMin i < high - 10 then Risk.NONE else active2
  (⟨active3, persist1, cooldown1⟩, fire)

/-- Ground-truth HYPO label, src/app.js:471-472: some sample of
`slice(i+1, i+1+horizonSteps)` is below `low`. -/
def trueHypoOf (series : List SamplePoint) (low : ℚ) (horizonSteps i : ℕ) : Bool :=
  ((series.drop (i + 1)).take horizonSteps).any fun p => decide (p.bg < low)

/-- Ground-truth HYPER label, src/app.js:471-473. -/
def trueHyperOf (series : List SamplePoint) (high : ℚ) (horizonSteps i : ℕ) : Bool :=
  ((series.drop (i + 1)).take horizonSteps).any fun p => decide (high < p.bg)

/-- Ground-truth event label, src/app.js:482. -/
def trueEventOf (series : List SamplePoint) (low high : ℚ) (horizonSteps i : ℕ) : Bool :=
  trueHypoOf series low horizonSteps i || trueHyperOf series high horizonSteps i

/-- Accumulated counts and improved-policy state of the backtest loop. -/
structure BtState where
  baseTP : ℕ
  baseFP : ℕ
  baseFN : ℕ
  impTP : ℕ
  impFP : ℕ
  impFN : ℕ
  imp : ImpState
deriving DecidableEq

/-- Initial loop state, src/app.js:453-461. -/
def btInit : BtState := ⟨0, 0, 0, 0, 0, 0, impInit⟩

/-- One iteration of the backtest loop body, src/app.js:467-531: both
policies are classified against the same `trueEvent` label. -/
def btStep (series : List SamplePoint) (low high horizonMin : ℚ) (horizonSteps : ℕ)
    (s : BtState) (i : ℕ) : BtState :=
  let te := trueEventOf series low high horizonSteps i
  let ba := baseAlertOf series low high horizonMin i
  let p := impStep series low high horizonMin s.imp i
  { baseTP := s.baseTP + (if ba && te then 1 else 0)
    baseFP := s.baseFP + (if ba && !te then 1 else 0)
    baseFN := s.baseFN + (if !ba && te then 1 else 0)
    impTP := s.impTP + (if p.2 && te then 1 else 0)
    impFP := s.impFP + (if p.2 && !te then 1 else 0)
    impFN := s.impFN + (if !p.2 && te then 1 else 0)
    imp := p.1 }

/-- Sampling interval in minutes, derived from the first two samples
(src/app.js:434). -/
def stepMinOf (series : List SamplePoint) : ℚ :=
  ((series.getD 1 dpt).tMs - (series.getD 0 dpt).tMs) / 60000

/-- horizonSteps from src/app.js:435: `max(1, round(horizonMin / stepMin))`. -/
def horizonStepsOf (series : List SamplePoint) (horizonMin : ℚ) : ℕ :=
  (max 1 (round (horizonMin / stepMinOf series))).toNat

/-- Indices visited by the backtest loop: `i` from `10` while
`i < length - horizonSteps` (src/app.js:467). -/
def evalIndices (len horizonSteps : ℕ) : List ℕ :=
  List.range' 10 (len - horizonSteps - 10)

/-- precision helper of src/app.js:533-536 (`0` when the denominator is `0`). -/
def precisionOf (tp fp : ℕ) : ℚ :=
  if tp + fp = 0 then 0 else (tp : ℚ) / ((tp : ℚ) + (fp : ℚ))

/-- recall helper of src/app.js:537-540 (`0` when the denominator is `0`). -/
def recallOf (tp fn : ℕ) : ℚ :=
  if tp + fn = 0 then 0 else (tp : ℚ) / ((tp : ℚ) + (fn : ℚ))

/-- Per-policy block of the report, src/app.js:545-546. -/
structure PolicyResult where
  TP : ℕ
  FP : ℕ
  FN : ℕ
  precision : ℚ
  recallRate : ℚ
deriving DecidableEq

/-- Result record of `backtest`, src/app.js:544-548. -/
structure BacktestReport where
  baseline : PolicyResult
  improved : PolicyResult
  fpReductionPct : ℚ
deriving DecidableEq

/-- backtest from src/app.js:431-549. Returns `none` (the JS `null`) when
the series has fewer than 20 samples, otherwise folds the loop body over the
evaluated indices and assembles the report. -/
def backtest (series : List SamplePoint) (low high horizonMin : ℚ) : Option BacktestReport :=
  if series.length < 20 then none
  else
    let hs := horizonStepsOf series horizonMin
    let fin := (evalIndices series.length hs).foldl (btStep series low high horizonMin hs) btInit
    let fpRed : ℚ :=
      if fin.baseFP = 0 then 0 else ((fin.baseFP : ℚ) - (fin.impFP : ℚ)) / (fin.baseFP : ℚ) * 100
    some
      { baseline := ⟨fin.baseTP, fin.baseFP, fin.baseFN,
          precisionOf fin.baseTP fin.baseFP, recallOf fin.baseTP fin.baseFN⟩
        improved := ⟨fin.impTP, fin.impFP, fin.impFN,
          precisionOf fin.impTP fin.impFP, recallOf fin.impTP fin.impFN⟩
        fpReductionPct := fpRed }

/-- One entry of an improved-policy run: loop index, whether the policy
fired there, and the state after the step. -/
structure ImpEntry where
  idx : ℕ
  fired : Bool
  st : ImpState
deriving DecidableEq

/-- Default entry for out-of-range access into a run. -/
def dEntry : ImpEntry := ⟨0, false, impInit⟩

/-- Trajectory of the improved policy from state `st` across a list of loop
indices, one entry per evaluated step. -/
def impRunAux (series : List SamplePoint) (low high horizonMin : ℚ) (st : ImpState) :
    List ℕ → List ImpEntry
  | [] => []
  | i :: rest =>
    let p := impStep series low high horizonMin st i
    ⟨i, p.2, p.1⟩ :: impRunAux series low high horizonMin p.1 rest

/-- Full improved-policy run of one backtest pass: initial state threaded
over exactly the indices the loop of src/app.js:467 visits. -/
def impRun (series : List SamplePoint) (low high horizonMin : ℚ) (horizonSteps : ℕ) :
    List ImpEntry :=
  impRunAux series low high horizonMin impInit (evalIndices series.length horizonSteps)

/-- Stateless baseline slope written from the words of the specification:
endpoint slope over the trailing 6-sample window with `start = max(0, i-5)`,
`0` when the elapsed time over the window is zero or negative. -/
def specSlope (series : List SamplePoint) (i : ℕ) : ℚ :=
  let start := max 0 (i - 5)
  let elapsed := ((series.getD i dpt).tMs - (series.getD start dpt).tMs) / 60000
  if elapsed ≤ 0 then 0
  else ((series.getD i dpt).bg - (series.getD start dpt).bg) / elapsed

/-- Stateless baseline projection written from the words of the
specification: `projected = value[i] + slope * horizonMinutes`. -/
def specProjected (series : List SamplePoint) (horizonMin : ℚ) (i : ℕ) : ℚ :=
  (series.getD i dpt).bg + specSlope series i * horizonMin

/-- Series of `n` samples on a 5-minute grid (timestamps `300000 * i` ms)
with constant glucose value `v`. -/
def constSeries (n : ℕ) (v : ℚ) : List SamplePoint :=
  (List.range n).map fun i : ℕ => SamplePoint.mk (300000 * (i : ℚ)) v

/-- Concrete 20-sample series: 5-minute grid, constant 150 mg/dL. -/
def cs20 : List SamplePoint := constSeries 20 150

/-- Concrete 30-sample series: 5-minute grid, constant 150 mg/dL. -/
def cs150 : List SamplePoint := constSeries 30 150

/-- Concrete 30-sample series: 5-minute grid, constant 60 mg/dL. -/
def cs60 : List SamplePoint := constSeries 30 60

/-- Report with all counts and metrics zero. -/
def zeroReport : BacktestReport := ⟨⟨0, 0, 0, 0, 0⟩, ⟨0, 0, 0, 0, 0⟩, 0⟩

noncomputable section

/-- Real-valued sample of the synthetic generator: `{ tMs, bg }`. -/
structure SynPoint where
  tMs : ℝ
  bg : ℝ

/-- Absorption-curve contribution shared by predictSugarCurve
(src/app.js:314-326) and mealDeltaAtMinute (src/app.js:361-371):
`x = elapsed / max(1, peakMin)`, result `peakRise * x * exp(1 - x)`. -/
def absorptionDelta (peakRise elapsedMin peakMin : ℝ) : ℝ :=
  peakRise * (elapsedMin / max 1 peakMin) * Real.exp (1 - elapsedMin / max 1 peakMin)

/-- Sampling interval of the generator, src/app.js:333-334:
`max(5, round(days*1440 / approxPoints))`. -/
def stepMinGen (days approxPoints : ℕ) : ℕ :=
  max 5 (round ((days * 1440 : ℚ) / (approxPoints : ℚ))).toNat

/-- Anchor minute of the day for the three daily meals, src/app.js:355-357. -/
def mealAnchor : ℕ → ℕ
  | 0 => 8 * 60
  | 1 => 13 * 60
  | _ => 19 * 60

/-- Jitter amplitude of the three daily meals, src/app.js:355-357. -/
def mealJitter : ℕ → ℝ
  | 0 => 45
  | _ => 60

/-- Onset minute of meal `i` (day `i / 3`, slot `i % 3`); consumes draw `i`
of the random source, matching the loop order of src/app.js:353-358. -/
def mealTime (rng : ℕ → ℝ) (i : ℕ) : ℤ :=
  (i / 3 : ℕ) * 1440 + mealAnchor (i % 3) + round ((rng i - 0.5) * mealJitter (i % 3))

/-- Sugar grams of meal `i`, src/app.js:359; consumes draw `3*days + i`. -/
def mealSugar (rng : ℕ → ℝ) (days i : ℕ) : ℤ :=
  20 + round (rng (3 * days + i) * 60)

/-- Hypo event count, src/app.js:376: `max(1, round(days / 18))`. -/
def numHypo (days : ℕ) : ℕ := max 1 (round ((days : ℚ) / 18)).toNat

/-- Hyper event count, src/app.js:377: `max(1, round(days / 12))`. -/
def numHyper (days : ℕ) : ℕ := max 1 (round ((days : ℚ) / 12)).toNat

/-- Center minute of hypo event `i`, src/app.js:379; consumes draw
`6*days + i`. -/
def hypoCenter (rng : ℕ → ℝ) (days i : ℕ) : ℤ :=
  round (rng (6 * days + i) * (days * 1440 : ℝ))

/-- Center minute of hyper event `i`, src/app.js:380; consumes draw
`6*days + numHypo + i`. -/
def hyperCenter (rng : ℕ → ℝ) (days i : ℕ) : ℤ :=
  round (rng (6 * days + numHypo days + i) * (days * 1440 : ℝ))

/-- mealDeltaAtMinute, src/app.js:361-371: meals whose onset has not yet
passed contribute zero; the rest go through the absorption curve with
`mgdlPerGram = 1.4` and `peakMin = 45`. -/
def mealDeltaAtMinute (rng : ℕ → ℝ) (days : ℕ) (minute : ℝ) : ℝ :=
  ∑ i in Finset.range (3 * days),
    if minute - (mealTime rng i : ℝ) < 0 then 0
    else absorptionDelta ((mealSugar rng days i : ℝ) * 1.4) (minute - (mealTime rng i : ℝ)) 45

/-- eventDeltaAtMinute, src/app.js:382-395: gaussian bumps, hypo amplitude
`-35` with sigma `35`, hyper amplitude `55` with sigma `50`, influencing
samples on both sides of the center. -/
def eventDeltaAtMinute (rng : ℕ → ℝ) (days : ℕ) (minute : ℝ) : ℝ :=
  (∑ i in Finset.range (numHypo days),
    -35 * Real.exp (-((minute - (hypoCenter rng days i : ℝ)) ^ 2) / (2 * 35 ^ 2))) +
  ∑ i in Finset.range (numHyper days),
    55 * Real.exp (-((minute - (hyperCenter rng days i : ℝ)) ^ 2) / (2 * 50 ^ 2))

/-- Index of the first noise draw, after the meal and event draws. -/
def noiseBase (days : ℕ) : ℕ := 6 * days + numHypo days + numHyper days

/-- Box-Muller gaussian draw for sample `k`, src/app.js:345-349; consumes
draws `noiseBase + 2k` and `noiseBase + 2k + 1`. -/
def randnAt (rng : ℕ → ℝ) (days k : ℕ) : ℝ :=
  Real.sqrt (-2 * Real.log (max 1e-9 (rng (noiseBase days + 2 * k)))) *
    Real.cos (2 * Real.pi * max 1e-9 (rng (noiseBase days + 2 * k + 1)))

/-- Number of samples the generator loop emits: `m = 0, step, …` while
`m ≤ days*1440` (src/app.js:400). -/
def synSampleCount (days approxPoints : ℕ) : ℕ :=
  days * 1440 / stepMinGen days approxPoints + 1

/-- Unclamped glucose value of sample `k`, src/app.js:400-407: base 115,
daily sinusoid of amplitude 12 and phase offset 0.8, meal and event deltas,
gaussian noise of sd 8. -/
def synBgRaw (rng : ℕ → ℝ) (days approxPoints k : ℕ) : ℝ :=
  let m : ℕ := k * stepMinGen days approxPoints
  115 + 12 * Real.sin (((m % 1440 : ℕ) : ℝ) / 1440 * (2 * Real.pi) - 0.8) +
    mealDeltaAtMinute rng days (m : ℝ) + eventDeltaAtMinute rng days (m : ℝ) +
    8 * randnAt rng days k

/-- generateSyntheticSeries, src/app.js:332-412: fixed sampling grid from
`startMs`, value clamped to `[40, 400]` (src/app.js:408). -/
def generateSyntheticSeries (rng : ℕ → ℝ) (startMs : ℝ) (days approxPoints : ℕ) :
    List SynPoint :=
  (List.range (synSampleCount days approxPoints)).map fun k =>
    SynPoint.mk (startMs + ((k * stepMinGen days approxPoints : ℕ) : ℝ) * 60000)
      (max 40 (min 400 (synBgRaw rng days approxPoints k)))

end

variable (series : List SamplePoint) (low high horizonMin : ℚ)

theorem getD_drop {α : Type} (l : List α) (n m : ℕ) (d : α) :
    (l.drop n).getD m d = l.getD (n + m) d := by
  induction l generalizing n with
  | nil => simp
  | cons a t ih =>
    cases n with
    | zero => simp
    | succ n => simp [Nat.succ_add, ih n]

theorem impStep_snd (st : ImpState) (i : ℕ) :
    (impStep series low high horizonMin st i).2 =
      decide (¬ (series.getD i dpt).tMs < st.cooldownUntilMs ∧
        rawRisk series low high horizonMin i ≠ Risk.NONE ∧
        2 ≤ (if rawRisk series low high horizonMin i ≠ Risk.NONE then st.persist + 1 else 0)) :=
  rfl

theorem impStep_persist (st : ImpState) (i : ℕ) :
    (impStep series low high horizonMin st i).1.persist =
      (if rawRisk series low high horizonMin i ≠ Risk.NONE then st.persist + 1 else 0) :=
  rfl

theorem impStep_cooldown (st : ImpState) (i : ℕ) :
    (impStep series low high horizonMin st i).1.cooldownUntilMs =
      (if (impStep series low high horizonMin st i).2 = true
        then (series.getD i dpt).tMs + 60 * 60000 else st.cooldownUntilMs) := by
  by_cases h : (impStep series low high horizonMin st i).2 = true
  · simp only [if_pos h]
    simp only [impStep] at h ⊢
    rw [if_pos (by simpa using h)]
  · simp only [if_neg h]
    simp only [impStep] at h ⊢
    rw [if_neg (by simpa using h)]

theorem impStep_fired_iff (st : ImpState) (i : ℕ) :
    (impStep series low high horizonMin st i).2 = true ↔
      ¬ (series.getD i dpt).tMs < st.cooldownUntilMs ∧
        rawRisk series low high horizonMin i ≠ Risk.NONE ∧ 1 ≤ st.persist := by
  rw [impStep_snd, decide_eq_true_iff]
  constructor
  · rintro ⟨h1, h2, h3⟩
    rw [if_pos h2] at h3
    exact ⟨h1, h2, by omega⟩
  · rintro ⟨h1, h2, h3⟩
    exact ⟨h1, h2, by rw [if_pos h2]; omega⟩

theorem impStep_not_fired_of_persist_zero (st : ImpState) (i : ℕ) (h : st.persist = 0) :
    (impStep series low high horizonMin st i).2 = false := by
  rw [Bool.eq_false_iff]
  intro hf
  have := (impStep_fired_iff series low high horizonMin st i).mp hf
  omega

theorem impRunAux_length (st : ImpState) (l : List ℕ) :
    (impRunAux series low high horizonMin st l).length = l.length := by
  induction l generalizing st with
  | nil => rfl
  | cons i rest ih => simp [impRunAux, ih]

theorem impRunAux_mem_idx (l : List ℕ) (st : ImpState) (e : ImpEntry)
    (hm : e ∈ impRunAux series low high horizonMin st l) : e.idx ∈ l := by
  induction l generalizing st with
  | nil => simp [impRunAux] at hm
  | cons i rest ih =>
    simp only [impRunAux, List.mem_cons] at hm
    rcases hm with h | h
    · subst h; simp
    · exact List.mem_cons_of_mem _ (ih _ h)

theorem impRunAux_mem_fired_cooldown (l : List ℕ) (st : ImpState) (e : ImpEntry)
    (hm : e ∈ impRunAux series low high horizonMin st l) (hf : e.fired = true) :
    e.st.cooldownUntilMs = (series.getD e.idx dpt).tMs + 60 * 60000 := by
  induction l generalizing st with
  | nil => simp [impRunAux] at hm
  | cons i rest ih =>
    simp only [impRunAux, List.mem_cons] at hm
    rcases hm with h | h
    · subst h
      simp only at hf ⊢
      rw [impStep_cooldown, if_pos hf]
    · exact ih _ h

theorem impRunAux_mem_persist_none (l : List ℕ) (st : ImpState) (e : ImpEntry)
    (hm : e ∈ impRunAux series low high horizonMin st l)
    (hr : rawRisk series low high horizonMin e.idx = Risk.NONE) : e.st.persist = 0 := by
  induction l generalizing st with
  | nil => simp [impRunAux] at hm
  | cons i rest ih =>
    simp only [impRunAux, List.mem_cons] at hm
    rcases hm with h | h
    · subst h
      simp only at hr ⊢
      rw [impStep_persist, if_neg (by simp [hr])]
    · exact ih _ h

theorem impRunAux_mem_fired_persist (l : List ℕ) (st : ImpState) (e : ImpEntry)
    (hm : e ∈ impRunAux series low high horizonMin st l) (hf : e.fired = true) :
    2 ≤ e.st.persist := by
  induction l generalizing st with
  | nil => simp [impRunAux] at hm
  | cons i rest ih =>
    simp only [impRunAux, List.mem_cons] at hm
    rcases hm with h | h
    · subst h
      simp only at hf ⊢
      rw [impStep_snd, decide_eq_true_iff] at hf
      rw [impStep_persist]
      exact hf.2.2
    · exact ih _ h

theorem impRunAux_mem_cooldown_lb (c : ℚ) (l : List ℕ) (st : ImpState)
    (hc : c ≤ st.cooldownUntilMs) (e : ImpEntry)
    (hm : e ∈ impRunAux series low high horizonMin st l) :
    c ≤ e.st.cooldownUntilMs ∧ (e.fired = true → c ≤ (series.getD e.idx dpt).tMs) := by
  induction l generalizing st with
  | nil => simp [impRunAux] at hm
  | cons i rest ih =>
    have hstep : c ≤ (impStep series low high horizonMin st i).1.cooldownUntilMs ∧
        ((impStep series low high horizonMin st i).2 = true →
          c ≤ (series.getD i dpt).tMs) := by
      by_cases hf : (impStep series low high horizonMin st i).2 = true
      · have hti := (impStep_fired_iff series low high horizonMin st i).mp hf
        have h1 : st.cooldownUntilMs ≤ (series.getD i dpt).tMs := not_lt.mp hti.1
        have h2 : c ≤ (series.getD i dpt).tMs := le_trans hc h1
        refine ⟨?_, fun _ => h2⟩
        rw [impStep_cooldown, if_pos hf]
        linarith
      · rw [impStep_cooldown, if_neg hf]
        exact ⟨hc, fun h => absurd h hf⟩
    simp only [impRunAux, List.mem_cons] at hm
    rcases hm with h | h
    · subst h
      exact hstep
    · exact ih _ hstep.1 h

theorem impRunAux_drop (l : List ℕ) (st : ImpState) (n : ℕ) :
    (impRunAux series low high horizonMin st l).drop (n + 1) =
      impRunAux series low high horizonMin
        ((impRunAux series low high horizonMin st l).getD n dEntry).st (l.drop (n + 1)) := by
  induction l generalizing st n with
  | nil => simp [impRunAux]
  | cons i rest ih =>
    cases n with
    | zero => simp [impRunAux]
    | succ n => simpa [impRunAux] using ih _ n

/-- Claim C1: once the improved policy fires at a step with timestamp `t`,
it fires no second alert at any later evaluated step whose timestamp is
strictly below `t + 60` minutes of trace time. -/
theorem claim_C1 (hs a b : ℕ) (hab : a < b)
    (hb : b < (impRun series low high horizonMin hs).length)
    (hfa : ((impRun series low high horizonMin hs).getD a dEntry).fired = true)
    (hfb : ((impRun series low high horizonMin hs).getD b dEntry).fired = true) :
    ¬ ((series.getD ((impRun series low high horizonMin hs).getD b dEntry).idx dpt).tMs <
      (series.getD ((impRun series low high horizonMin hs).getD a dEntry).idx dpt).tMs
        + 60 * 60000) := by
  set run := impRun series low high horizonMin hs with hrun
  set l := evalIndices series.length hs with hl
  have hlen : run.length = l.length := impRunAux_length series low high horizonMin impInit l
  have ha : a < run.length := lt_trans hab hb
  have hmema : run.getD a dEntry ∈ run := by
    rw [List.getD_eq_getElem _ _ ha]
    exact List.getElem_mem _
  have hcd : (run.getD a dEntry).st.cooldownUntilMs =
      (series.getD ((run.getD a dEntry).idx) dpt).tMs + 60 * 60000 :=
    impRunAux_mem_fired_cooldown series low high horizonMin l impInit _ hmema hfa
  have hdrop : run.drop (a + 1) =
      impRunAux series low high horizonMin ((run.getD a dEntry).st) (l.drop (a + 1)) :=
    impRunAux_drop series low high horizonMin l impInit a
  have hgb : run.getD b dEntry = (run.drop (a + 1)).getD (b - (a + 1)) dEntry := by
    rw [getD_drop]
    congr 1
    omega
  have hmemb : run.getD b dEntry ∈
      impRunAux series low high horizonMin ((run.getD a dEntry).st) (l.drop (a + 1)) := by
    rw [← hdrop, hgb]
    have hblen : b - (a + 1) < (run.drop (a + 1)).length := by
      rw [List.length_drop]
      omega
    rw [List.getD_eq_getElem _ _ hblen]
    exact List.getElem_mem _
  have := impRunAux_mem_cooldown_lb series low high horizonMin
    ((series.getD ((run.getD a dEntry).idx) dpt).tMs + 60 * 60000) (l.drop (a + 1))
    ((run.getD a dEntry).st) (le_of_eq hcd.symm) _ hmemb
  exact not_lt.mpr (this.2 hfb)


theorem constSeries_length (n : ℕ) (v : ℚ) : (constSeries n v).length = n := by
  simp [constSeries]

theorem constSeries_getD (n : ℕ) (v : ℚ) (i : ℕ) (h : i < n) :
    (constSeries n v).getD i dpt = SamplePoint.mk (300000 * (i : ℚ)) v := by
  rw [List.getD_eq_getElem _ _ (by simpa [constSeries] using h)]
  simp [constSeries]

theorem constSeries_slope (n : ℕ) (v : ℚ) (i : ℕ) (h1 : 1 ≤ i) (h : i < n) :
    slopePerMin (constSeries n v) i 6 = 0 := by
  have hs : i - (6 - 1) < n := lt_of_le_of_lt (Nat.sub_le _ _) h
  have hlt : ((i - (6 - 1) : ℕ) : ℚ) < (i : ℚ) := by
    have : i - (6 - 1) < i := by omega
    exact_mod_cast this
  simp only [slopePerMin]
  rw [constSeries_getD n v i h, constSeries_getD n v _ hs]
  simp only
  rw [if_neg (by simp only [not_le]; nlinarith)]
  simp

theorem constSeries_smoothBg (n : ℕ) (v : ℚ) (i : ℕ) (h2 : 2 ≤ i) (h : i < n) :
    smoothBg (constSeries n v) i = v := by
  unfold smoothBg
  rw [constSeries_getD n v i h, constSeries_getD n v (i - 1) (by omega),
    constSeries_getD n v (i - 2) (by omega)]
  ring

theorem constSeries_smoothProj (n : ℕ) (v m : ℚ) (i : ℕ) (h2 : 2 ≤ i) (h : i < n) :
    smoothProj (constSeries n v) m i = v := by
  unfold smoothProj
  rw [constSeries_smoothBg n v i h2 h, constSeries_slope n v i (by omega) h]
  ring

theorem cs60_raw (i : ℕ) (h2 : 2 ≤ i) (h : i < 30) :
    rawRisk cs60 70 180 30 i = Risk.HYPO := by
  unfold cs60 rawRisk
  rw [if_pos (Or.inl (by rw [constSeries_smoothBg 30 60 i h2 h]; norm_num))]

theorem cs150_raw (i : ℕ) (h2 : 2 ≤ i) (h : i < 30) :
    rawRisk cs150 70 180 30 i = Risk.NONE := by
  unfold cs150 rawRisk
  rw [if_neg, if_neg]
  · push_neg
    rw [constSeries_smoothBg 30 150 i h2 h, constSeries_smoothProj 30 150 30 i h2 h]
    norm_num
  · push_neg
    rw [constSeries_smoothBg 30 150 i h2 h, constSeries_smoothProj 30 150 30 i h2 h]
    norm_num

theorem range'_getD (s n c : ℕ) (h : c < n) : (List.range' s n).getD c 0 = s + c := by
  rw [List.getD_eq_getElem _ _ (by simpa using h)]
  simp [List.getElem_range']

theorem impRunAux_getD_idx (l : List ℕ) (st : ImpState) (b : ℕ) (h : b < l.length) :
    ((impRunAux series low high horizonMin st l).getD b dEntry).idx = l.getD b 0 := by
  induction l generalizing st b with
  | nil => simp at h
  | cons i rest ih =>
    cases b with
    | zero => simp [impRunAux]
    | succ b => simpa [impRunAux] using ih _ b (by simpa using h)

theorem impRunAux_refire (l : List ℕ) (st : ImpState) (C : ℚ)
    (hp : 2 ≤ st.persist) (hcd : st.cooldownUntilMs = C) (b : ℕ) (hb : b < l.length)
    (hraw : ∀ c, c ≤ b → rawRisk series low high horizonMin (l.getD c 0) ≠ Risk.NONE)
    (hcool : ∀ c, c < b → (series.getD (l.getD c 0) dpt).tMs < C)
    (hpast : C ≤ (series.getD (l.getD b 0) dpt).tMs) :
    ((impRunAux series low high horizonMin st l).getD b dEntry).fired = true := by
  induction l generalizing st b with
  | nil => simp at hb
  | cons i rest ih =>
    cases b with
    | zero =>
      have hfire : (impStep series low high horizonMin st i).2 = true := by
        rw [impStep_fired_iff]
        refine ⟨not_lt.mpr ?_, by simpa using hraw 0 le_rfl, by omega⟩
        rw [hcd]
        simpa using hpast
      simpa [impRunAux] using hfire
    | succ b =>
      have hraw0 : rawRisk series low high horizonMin i ≠ Risk.NONE := by
        simpa using hraw 0 (Nat.zero_le _)
      have hnof : (impStep series low high horizonMin st i).2 = false := by
        rw [Bool.eq_false_iff]
        intro hf
        have := ((impStep_fired_iff series low high horizonMin st i).mp hf).1
        have hc0 := hcool 0 (Nat.succ_pos b)
        rw [List.getD_cons_zero] at hc0
        rw [hcd] at this
        exact this hc0
      have hper : 2 ≤ (impStep series low high horizonMin st i).1.persist := by
        rw [impStep_persist, if_pos hraw0]
        omega
      have hcd1 : (impStep series low high horizonMin st i).1.cooldownUntilMs = C := by
        rw [impStep_cooldown, if_neg (by simp [hnof]), hcd]
      have := ih ((impStep series low high horizonMin st i).1) hper hcd1 b
        (by simpa using hb)
        (fun c hc => by simpa using hraw (c + 1) (by omega))
        (fun c hc => by simpa using hcool (c + 1) (by omega))
        (by simpa using hpast)
      simpa [impRunAux] using this

theorem cs60_tMs (i : ℕ) (h : i < 30) : (cs60.getD i dpt).tMs = 300000 * (i : ℚ) := by
  unfold cs60
  rw [constSeries_getD 30 60 i h]

theorem cs60_indices : evalIndices cs60.length 6 = 10 :: 11 :: List.range' 12 12 := by
  unfold cs60
  rw [constSeries_length]
  rfl

theorem cs60_fire10 : (impStep cs60 70 180 30 impInit 10).2 = false :=
  impStep_not_fired_of_persist_zero cs60 70 180 30 impInit 10 rfl

theorem cs60_st1_persist : (impStep cs60 70 180 30 impInit 10).1.persist = 1 := by
  rw [impStep_persist, if_pos (by simp [cs60_raw 10 (by omega) (by omega)])]
  rfl

theorem cs60_st1_cooldown : (impStep cs60 70 180 30 impInit 10).1.cooldownUntilMs = 0 := by
  rw [impStep_cooldown, if_neg (by simp [cs60_fire10])]
  rfl

theorem cs60_fire11 :
    (impStep cs60 70 180 30 (impStep cs60 70 180 30 impInit 10).1 11).2 = true := by
  rw [impStep_fired_iff]
  refine ⟨?_, by simp [cs60_raw 11 (by omega) (by omega)], by rw [cs60_st1_persist]⟩
  rw [cs60_st1_cooldown, cs60_tMs 11 (by omega)]
  norm_num

theorem cs60_st2_persist :
    (impStep cs60 70 180 30 (impStep cs60 70 180 30 impInit 10).1 11).1.persist = 2 := by
  rw [impStep_persist, if_pos (by simp [cs60_raw 11 (by omega) (by omega)]), cs60_st1_persist]

theorem cs60_st2_cooldown :
    (impStep cs60 70 180 30 (impStep cs60 70 180 30 impInit 10).1 11).1.cooldownUntilMs
      = 6900000 := by
  rw [impStep_cooldown, if_pos cs60_fire11, cs60_tMs 11 (by omega)]
  norm_num

theorem cs60_run_head : impRun cs60 70 180 30 6 =
    ⟨10, (impStep cs60 70 180 30 impInit 10).2, (impStep cs60 70 180 30 impInit 10).1⟩ ::
    ⟨11, (impStep cs60 70 180 30 (impStep cs60 70 180 30 impInit 10).1 11).2,
      (impStep cs60 70 180 30 (impStep cs60 70 180 30 impInit 10).1 11).1⟩ ::
    impRunAux cs60 70 180 30
      (impStep cs60 70 180 30 (impStep cs60 70 180 30 impInit 10).1 11).1
      (List.range' 12 12) := by
  unfold impRun
  rw [cs60_indices]
  simp only [impRunAux]

theorem cs60_fired_pos1 : ((impRun cs60 70 180 30 6).getD 1 dEntry).fired = true := by
  rw [cs60_run_head]
  simpa using cs60_fire11

theorem cs60_fired_pos13 : ((impRun cs60 70 180 30 6).getD 13 dEntry).fired = true := by
  have hdrop : (impRun cs60 70 180 30 6).drop 2 = impRunAux cs60 70 180 30
      (impStep cs60 70 180 30 (impStep cs60 70 180 30 impInit 10).1 11).1
      (List.range' 12 12) := by
    rw [cs60_run_head]
    rfl
  have h13 : (impRun cs60 70 180 30 6).getD 13 dEntry =
      ((impRun cs60 70 180 30 6).drop 2).getD 11 dEntry := by
    rw [getD_drop]
  rw [h13, hdrop]
  refine impRunAux_refire cs60 70 180 30 (List.range' 12 12) _ 6900000
    (by rw [cs60_st2_persist]) cs60_st2_cooldown 11 (by simp) ?_ ?_ ?_
  · intro c hc
    rw [range'_getD 12 12 c (by omega), cs60_raw (12 + c) (by omega) (by omega)]
    simp
  · intro c hc
    rw [range'_getD 12 12 c (by omega), cs60_tMs (12 + c) (by omega)]
    have hcq : (c : ℚ) < 11 := by exact_mod_cast hc
    push_cast
    linarith
  · rw [range'_getD 12 12 11 (by omega), cs60_tMs 23 (by omega)]
    norm_num

theorem cs60_run_length : (impRun cs60 70 180 30 6).length = 14 := by
  unfold impRun
  rw [impRunAux_length, cs60_indices]
  rfl

/-- Witness for C1: on a constant 60 mg/dL series with 5-minute steps the
improved policy fires at loop index 11 (run position 1) and again at loop
index 23 (run position 13), exactly 60 minutes later; the second firing is
not strictly inside the 60-minute window, as claim C1 requires. -/
theorem claim_C1_witness :
    (1 < 13 ∧ 13 < (impRun cs60 70 180 30 6).length ∧
      ((impRun cs60 70 180 30 6).getD 1 dEntry).fired = true ∧
      ((impRun cs60 70 180 30 6).getD 13 dEntry).fired = true) ∧
    ¬ ((cs60.getD ((impRun cs60 70 180 30 6).getD 13 dEntry).idx dpt).tMs <
      (cs60.getD ((impRun cs60 70 180 30 6).getD 1 dEntry).idx dpt).tMs + 60 * 60000) :=
  ⟨⟨by omega, by rw [cs60_run_length]; omega, cs60_fired_pos1, cs60_fired_pos13⟩,
    claim_C1 cs60 70 180 30 6 1 13 (by omega) (by rw [cs60_run_length]; omega)
      cs60_fired_pos1 cs60_fired_pos13⟩

theorem impRunAux_mem_fired_raw (l : List ℕ) (st : ImpState) (e : ImpEntry)
    (hm : e ∈ impRunAux series low high horizonMin st l) (hf : e.fired = true) :
    rawRisk series low high horizonMin e.idx ≠ Risk.NONE := by
  induction l generalizing st with
  | nil => simp [impRunAux] at hm
  | cons i rest ih =>
    simp only [impRunAux, List.mem_cons] at hm
    rcases hm with h | h
    · subst h
      simp only at hf ⊢
      exact ((impStep_fired_iff series low high horizonMin st i).mp hf).2.1
    · exact ih _ h

theorem impRunAux_head_not_fired (l : List ℕ) (st : ImpState) (h : st.persist = 0) :
    ((impRunAux series low high horizonMin st l).getD 0 dEntry).fired = false := by
  cases l with
  | nil => rfl
  | cons i rest =>
    simpa [impRunAux] using impStep_not_fired_of_persist_zero series low high horizonMin st i h

/-- Claim C2: the improved policy never fires on a run whose raw risk is
NONE at every evaluated step; a firing always has a persistence counter of
at least 2; the counter is 0 at every step whose raw risk is NONE; the very
first evaluated step never fires; and a step immediately following a
NONE-risk step never fires. -/
theorem claim_C2 (hs : ℕ) :
    ((∀ i ∈ evalIndices series.length hs,
        rawRisk series low high horizonMin i = Risk.NONE) →
      ∀ e ∈ impRun series low high horizonMin hs, e.fired = false) ∧
    (∀ e ∈ impRun series low high horizonMin hs, e.fired = true → 2 ≤ e.st.persist) ∧
    (∀ e ∈ impRun series low high horizonMin hs,
      rawRisk series low high horizonMin e.idx = Risk.NONE → e.st.persist = 0) ∧
    ((impRun series low high horizonMin hs).getD 0 dEntry).fired = false ∧
    (∀ b, 0 < b → b < (impRun series low high horizonMin hs).length →
      rawRisk series low high horizonMin
        (((impRun series low high horizonMin hs).getD (b - 1) dEntry).idx) = Risk.NONE →
      ((impRun series low high horizonMin hs).getD b dEntry).fired = false) := by
  refine ⟨?_, ?_, ?_, ?_, ?_⟩
  · intro hnone e he
    cases hef : e.fired with
    | false => rfl
    | true =>
      have hraw := impRunAux_mem_fired_raw series low high horizonMin _ _ _ he hef
      have hidx := impRunAux_mem_idx series low high horizonMin _ _ _ he
      exact absurd (hnone _ hidx) hraw
  · intro e he hf
    exact impRunAux_mem_fired_persist series low high horizonMin _ _ _ he hf
  · intro e he hr
    exact impRunAux_mem_persist_none series low high horizonMin _ _ _ he hr
  · exact impRunAux_head_not_fired series low high horizonMin _ _ rfl
  · intro b hb0 hb hraw
    set run := impRun series low high horizonMin hs with hrun
    set l := evalIndices series.length hs with hl
    have hb1 : b - 1 < run.length := by omega
    have hmem : run.getD (b - 1) dEntry ∈ run := by
      rw [List.getD_eq_getElem _ _ hb1]
      exact List.getElem_mem _
    have hp0 : (run.getD (b - 1) dEntry).st.persist = 0 :=
      impRunAux_mem_persist_none series low high horizonMin _ _ _ hmem hraw
    have hdrop : run.drop (b - 1 + 1) =
        impRunAux series low high horizonMin ((run.getD (b - 1) dEntry).st)
          (l.drop (b - 1 + 1)) :=
      impRunAux_drop series low high horizonMin l impInit (b - 1)
    have hgb : run.getD b dEntry = (run.drop (b - 1 + 1)).getD 0 dEntry := by
      rw [getD_drop]
      congr 1
      omega
    rw [hgb, hdrop]
    exact impRunAux_head_not_fired series low high horizonMin _ _ hp0

theorem cs150_indices : evalIndices cs150.length 6 = List.range' 10 14 := by
  unfold cs150
  rw [constSeries_length]
  rfl

/-- Witness for C2: on a constant 150 mg/dL series the raw risk is NONE at
every evaluated step and the improved policy indeed never fires. -/
theorem claim_C2_witness :
    (∀ i ∈ evalIndices cs150.length 6, rawRisk cs150 70 180 30 i = Risk.NONE) ∧
    (∀ e ∈ impRun cs150 70 180 30 6, e.fired = false) := by
  have hnone : ∀ i ∈ evalIndices cs150.length 6, rawRisk cs150 70 180 30 i = Risk.NONE := by
    intro i hi
    rw [cs150_indices] at hi
    rw [List.mem_range'_1] at hi
    exact cs150_raw i (by omega) (by omega)
  exact ⟨hnone, (claim_C2 cs150 70 180 30 6).1 hnone⟩

/-- Claim C10: the persistence counter is not reset by a firing and the
cooldown comparison is strict, so if the raw risk stays non-NONE from a
firing through the whole cooldown, the policy fires again at the first
evaluated step lying at least 60 minutes after the previous firing, with no
fresh two-step persistence required. -/
theorem claim_C10 (hs a b : ℕ) (hab : a < b)
    (hb : b < (impRun series low high horizonMin hs).length)
    (hfa : ((impRun series low high horizonMin hs).getD a dEntry).fired = true)
    (hraw : ∀ c, a < c → c ≤ b →
      rawRisk series low high horizonMin
        (((impRun series low high horizonMin hs).getD c dEntry).idx) ≠ Risk.NONE)
    (hfirst : ∀ c, a < c → c < b →
      (series.getD (((impRun series low high horizonMin hs).getD c dEntry).idx) dpt).tMs <
        (series.getD (((impRun series low high horizonMin hs).getD a dEntry).idx) dpt).tMs
          + 60 * 60000)
    (hpast :
      (series.getD (((impRun series low high horizonMin hs).getD a dEntry).idx) dpt).tMs
          + 60 * 60000 ≤
        (series.getD (((impRun series low high horizonMin hs).getD b dEntry).idx) dpt).tMs) :
    ((impRun series low high horizonMin hs).getD b dEntry).fired = true := by
  set run := impRun series low high horizonMin hs with hrun
  set l := evalIndices series.length hs with hl
  have hlen : run.length = l.length := impRunAux_length series low high horizonMin impInit l
  have ha : a < run.length := lt_trans hab hb
  have hmema : run.getD a dEntry ∈ run := by
    rw [List.getD_eq_getElem _ _ ha]
    exact List.getElem_mem _
  have hcd : (run.getD a dEntry).st.cooldownUntilMs =
      (series.getD ((run.getD a dEntry).idx) dpt).tMs + 60 * 60000 :=
    impRunAux_mem_fired_cooldown series low high horizonMin l impInit _ hmema hfa
  have hper : 2 ≤ (run.getD a dEntry).st.persist :=
    impRunAux_mem_fired_persist series low high horizonMin l impInit _ hmema hfa
  have hidx : ∀ c, c < run.length → (run.getD c dEntry).idx = l.getD c 0 := by
    intro c hc
    exact impRunAux_getD_idx series low high horizonMin l impInit c (by omega)
  have hdrop : run.drop (a + 1) =
      impRunAux series low high horizonMin ((run.getD a dEntry).st) (l.drop (a + 1)) :=
    impRunAux_drop series low high horizonMin l impInit a
  have hgb : run.getD b dEntry = (run.drop (a + 1)).getD (b - (a + 1)) dEntry := by
    rw [getD_drop]
    congr 1
    omega
  rw [hgb, hdrop]
  refine impRunAux_refire series low high horizonMin (l.drop (a + 1)) _
    ((series.getD ((run.getD a dEntry).idx) dpt).tMs + 60 * 60000) hper hcd (b - (a + 1))
    (by rw [List.length_drop]; omega) ?_ ?_ ?_
  · intro c hc
    rw [getD_drop, ← hidx (a + 1 + c) (by omega)]
    exact hraw (a + 1 + c) (by omega) (by omega)
  · intro c hc
    rw [getD_drop, ← hidx (a + 1 + c) (by omega)]
    exact hfirst (a + 1 + c) (by omega) (by omega)
  · rw [getD_drop, ← hidx (a + 1 + (b - (a + 1))) (by omega)]
    have : a + 1 + (b - (a + 1)) = b := by omega
    rw [this]
    exact hpast

theorem cs60_indices_range : evalIndices cs60.length 6 = List.range' 10 14 := by
  unfold cs60
  rw [constSeries_length]
  rfl

theorem cs60_idx (c : ℕ) (h : c < 14) :
    ((impRun cs60 70 180 30 6).getD c dEntry).idx = 10 + c := by
  unfold impRun
  rw [impRunAux_getD_idx cs60 70 180 30 _ impInit c
    (by rw [cs60_indices_range]; simpa using h)]
  rw [cs60_indices_range, range'_getD 10 14 c h]

/-- Witness for C10: on the constant 60 mg/dL series the policy fires at
loop index 11, the raw risk stays HYPO through the whole cooldown, and the
policy indeed fires again at loop index 23, exactly 60 minutes later. -/
theorem claim_C10_witness :
    ((1 : ℕ) < 13 ∧ 13 < (impRun cs60 70 180 30 6).length ∧
      ((impRun cs60 70 180 30 6).getD 1 dEntry).fired = true ∧
      (∀ c, 1 < c → c ≤ 13 →
        rawRisk cs60 70 180 30 (((impRun cs60 70 180 30 6).getD c dEntry).idx)
          ≠ Risk.NONE) ∧
      (∀ c, 1 < c → c < 13 →
        (cs60.getD (((impRun cs60 70 180 30 6).getD c dEntry).idx) dpt).tMs <
          (cs60.getD (((impRun cs60 70 180 30 6).getD 1 dEntry).idx) dpt).tMs
            + 60 * 60000) ∧
      (cs60.getD (((impRun cs60 70 180 30 6).getD 1 dEntry).idx) dpt).tMs + 60 * 60000 ≤
        (cs60.getD (((impRun cs60 70 180 30 6).getD 13 dEntry).idx) dpt).tMs) ∧
    ((impRun cs60 70 180 30 6).getD 13 dEntry).fired = true := by
  have hlen : 13 < (impRun cs60 70 180 30 6).length := by rw [cs60_run_length]; omega
  have hraw : ∀ c, 1 < c → c ≤ 13 →
      rawRisk cs60 70 180 30 (((impRun cs60 70 180 30 6).getD c dEntry).idx)
        ≠ Risk.NONE := by
    intro c h1 h2
    rw [cs60_idx c (by omega), cs60_raw (10 + c) (by omega) (by omega)]
    simp
  have hfirst : ∀ c, 1 < c → c < 13 →
      (cs60.getD (((impRun cs60 70 180 30 6).getD c dEntry).idx) dpt).tMs <
        (cs60.getD (((impRun cs60 70 180 30 6).getD 1 dEntry).idx) dpt).tMs
          + 60 * 60000 := by
    intro c h1 h2
    rw [cs60_idx c (by omega), cs60_idx 1 (by omega),
      cs60_tMs (10 + c) (by omega), cs60_tMs 11 (by omega)]
    have hcq : (c : ℚ) < 13 := by exact_mod_cast h2
    push_cast
    linarith
  have hpast :
      (cs60.getD (((impRun cs60 70 180 30 6).getD 1 dEntry).idx) dpt).tMs + 60 * 60000 ≤
        (cs60.getD (((impRun cs60 70 180 30 6).getD 13 dEntry).idx) dpt).tMs := by
    rw [cs60_idx 1 (by omega), cs60_idx 13 (by omega),
      cs60_tMs 11 (by omega), cs60_tMs 23 (by omega)]
    norm_num
  exact ⟨⟨by omega, hlen, cs60_fired_pos1, hraw, hfirst, hpast⟩,
    claim_C10 cs60 70 180 30 6 1 13 (by omega) hlen cs60_fired_pos1 hraw hfirst hpast⟩

theorem cs20_length_eq : cs20.length = 20 := by
  unfold cs20
  rw [constSeries_length]

theorem cs20_stepMin : stepMinOf cs20 = 5 := by
  unfold stepMinOf cs20
  rw [constSeries_getD 20 150 1 (by omega), constSeries_getD 20 150 0 (by omega)]
  norm_num

theorem cs20_hsteps : horizonStepsOf cs20 50 = 10 := by
  unfold horizonStepsOf
  rw [cs20_stepMin]
  have h10 : round ((50 : ℚ) / 5) = 10 := by
    norm_num [round_eq]
  rw [h10]
  rfl

theorem backtest_cs20 : backtest cs20 70 180 50 = some zeroReport := by
  have hempty : evalIndices cs20.length (horizonStepsOf cs20 50) = [] := by
    rw [cs20_length_eq, cs20_hsteps]
    rfl
  unfold backtest
  rw [if_neg (by rw [cs20_length_eq]; omega)]
  simp only [hempty, List.foldl_nil]
  simp [zeroReport, btInit, precisionOf, recallOf]

/-- Claim C3 (amended): the evaluator returns its failure value exactly when
the trace has fewer than 20 samples; when the trace is at least 20 samples
long but `length - horizonSteps <= 10`, it instead silently returns a
normal report whose counts are all zero. -/
theorem claim_C3 : backtest series low high horizonMin = none ↔ series.length < 20 := by
  unfold backtest
  split_ifs with h
  · simp [h]
  · simp [h]

/-- Counterexample to C3 as stated: a 20-sample trace with 5-minute steps
and a 50-minute horizon has `length - horizonSteps = 10 <= 10`, yet the
evaluator does not fail — it returns a report with all counts zero. -/
theorem claim_C3_counterexample :
    cs20.length - horizonStepsOf cs20 50 ≤ 10 ∧
      backtest cs20 70 180 50 = some zeroReport := by
  constructor
  · rw [cs20_length_eq, cs20_hsteps]
  · exact backtest_cs20

/-- Claim C6 (amended): the evaluator computes
`horizonSteps = max(1, round(horizonMinutes / stepMinutes))` — not the bare
rounding — with `stepMinutes` derived once from the first two samples, and
iterates exactly over the indices `i` with `10 <= i` and
`i + horizonSteps < length`. -/
theorem claim_C6 :
    ((horizonStepsOf series horizonMin : ℤ) =
      max 1 (round (horizonMin / stepMinOf series))) ∧
    stepMinOf series = ((series.getD 1 dpt).tMs - (series.getD 0 dpt).tMs) / 60000 ∧
    (∀ i : ℕ, i ∈ evalIndices series.length (horizonStepsOf series horizonMin) ↔
      10 ≤ i ∧ i + horizonStepsOf series horizonMin < series.length) := by
  refine ⟨?_, rfl, ?_⟩
  · unfold horizonStepsOf
    exact Int.toNat_of_nonneg (le_trans (by norm_num) (le_max_left _ _))
  · intro i
    unfold evalIndices
    rw [List.mem_range'_1]
    omega

/-- Counterexample to C6 as stated: with 5-minute steps and a 1-minute
horizon, `round(horizonMinutes / stepMinutes) = round(1/5) = 0`, but the
evaluator uses `max(1, round(1/5)) = 1`. -/
theorem claim_C6_counterexample :
    ((horizonStepsOf cs20 1 : ℕ) : ℤ) ≠ round ((1 : ℚ) / stepMinOf cs20) := by
  have h0 : round ((1 : ℚ) / 5) = 0 := by
    norm_num [round_eq]
  have h1 : horizonStepsOf cs20 1 = 1 := by
    unfold horizonStepsOf
    rw [cs20_stepMin, h0]
    rfl
  rw [h1, cs20_stepMin, h0]
  decide

theorem precisionOf_mem (tp fp : ℕ) : 0 ≤ precisionOf tp fp ∧ precisionOf tp fp ≤ 1 := by
  unfold precisionOf
  split_ifs with h
  · norm_num
  · have hpos : 0 < (tp : ℚ) + (fp : ℚ) := by
      have : 0 < tp + fp := Nat.pos_of_ne_zero h
      exact_mod_cast this
    refine ⟨by positivity, ?_⟩
    rw [div_le_one hpos]
    have : (0 : ℚ) ≤ (fp : ℚ) := by positivity
    linarith

theorem recallOf_mem (tp fn : ℕ) : 0 ≤ recallOf tp fn ∧ recallOf tp fn ≤ 1 := by
  unfold recallOf
  split_ifs with h
  · norm_num
  · have hpos : 0 < (tp : ℚ) + (fn : ℚ) := by
      have : 0 < tp + fn := Nat.pos_of_ne_zero h
      exact_mod_cast this
    refine ⟨by positivity, ?_⟩
    rw [div_le_one hpos]
    have : (0 : ℚ) ≤ (fn : ℚ) := by positivity
    linarith

/-- Claim C7: in every completed report, precision and recall equal
`TP/(TP+FP)` and `TP/(TP+FN)` with value exactly 0 when the denominator is
0, both metrics lie in `[0,1]` for both policies, and the false-positive
reduction equals `(baselineFP - improvedFP) / baselineFP * 100`, 0 when
`baselineFP` is 0. -/
theorem claim_C7 (r : BacktestReport) (h : backtest series low high horizonMin = some r) :
    (r.baseline.precision = (if r.baseline.TP + r.baseline.FP = 0 then 0
      else (r.baseline.TP : ℚ) / ((r.baseline.TP : ℚ) + (r.baseline.FP : ℚ)))) ∧
    (r.baseline.recallRate = (if r.baseline.TP + r.baseline.FN = 0 then 0
      else (r.baseline.TP : ℚ) / ((r.baseline.TP : ℚ) + (r.baseline.FN : ℚ)))) ∧
    (r.improved.precision = (if r.improved.TP + r.improved.FP = 0 then 0
      else (r.improved.TP : ℚ) / ((r.improved.TP : ℚ) + (r.improved.FP : ℚ)))) ∧
    (r.improved.recallRate = (if r.improved.TP + r.improved.FN = 0 then 0
      else (r.improved.TP : ℚ) / ((r.improved.TP : ℚ) + (r.improved.FN : ℚ)))) ∧
    (0 ≤ r.baseline.precision ∧ r.baseline.precision ≤ 1) ∧
    (0 ≤ r.baseline.recallRate ∧ r.baseline.recallRate ≤ 1) ∧
    (0 ≤ r.improved.precision ∧ r.improved.precision ≤ 1) ∧
    (0 ≤ r.improved.recallRate ∧ r.improved.recallRate ≤ 1) ∧
    (r.fpReductionPct = (if r.baseline.FP = 0 then 0
      else ((r.baseline.FP : ℚ) - (r.improved.FP : ℚ)) / (r.baseline.FP : ℚ) * 100)) := by
  unfold backtest at h
  split_ifs at h with hlen
  simp only [Option.some.injEq] at h
  subst h
  refine ⟨rfl, rfl, rfl, rfl, precisionOf_mem _ _, recallOf_mem _ _,
    precisionOf_mem _ _, recallOf_mem _ _, rfl⟩

/-- Witness for C7: the all-zero report of a zero-iteration backtest run
satisfies the metric bounds; in particular its baseline precision is 0. -/
theorem claim_C7_witness :
    backtest cs20 70 180 50 = some zeroReport ∧
    (0 ≤ zeroReport.baseline.precision ∧ zeroReport.baseline.precision ≤ 1) :=
  ⟨backtest_cs20, (claim_C7 cs20 70 180 50 zeroReport backtest_cs20).2.2.2.2.1⟩

/-- Claim C4: the baseline decision equals the stateless computation of the
specification — endpoint slope over the trailing 6-sample window with
`start = max(0, i-5)` (0 for a non-positive elapsed time), linear
projection, and the threshold tests on the current and projected values. -/
theorem claim_C4 (i : ℕ) :
    slopePerMin series i 6 = specSlope series i ∧
    projectedBg series horizonMin i = specProjected series horizonMin i ∧
    (baseHypoAlert series low horizonMin i = true ↔
      ((series.getD i dpt).bg < low ∨ specProjected series horizonMin i < low)) ∧
    (baseHyperAlert series high horizonMin i = true ↔
      (high < (series.getD i dpt).bg ∨ high < specProjected series horizonMin i)) := by
  have hslope : slopePerMin series i 6 = specSlope series i := by
    unfold slopePerMin specSlope
    simp [Nat.zero_max]
  have hproj : projectedBg series horizonMin i = specProjected series horizonMin i := by
    unfold projectedBg specProjected
    rw [hslope]
  refine ⟨hslope, hproj, ?_, ?_⟩
  · simp [baseHypoAlert, hproj]
  · simp [baseHyperAlert, hproj]

theorem getD_take {α : Type} (l : List α) (n m : ℕ) (d : α) (h1 : m < n) (h2 : m < l.length) :
    (l.take n).getD m d = l.getD m d := by
  rw [List.getD_eq_getElem _ _ (by simp [List.length_take]; omega),
    List.getD_eq_getElem _ _ h2]
  exact List.getElem_take _

theorem slice_any_iff (p : SamplePoint → Bool) (hs i : ℕ) (h : i + hs < series.length) :
    (((series.drop (i + 1)).take hs).any p = true ↔
      ∃ j, i + 1 ≤ j ∧ j ≤ i + hs ∧ p (series.getD j dpt) = true) := by
  have hlen : (((series.drop (i + 1)).take hs)).length = hs := by
    simp [List.length_take, List.length_drop]
    omega
  have hget : ∀ k, k < hs →
      ((series.drop (i + 1)).take hs).getD k dpt = series.getD (i + 1 + k) dpt := by
    intro k hk
    rw [getD_take _ _ _ _ hk (by simp [List.length_drop]; omega), getD_drop]
  rw [List.any_eq_true]
  constructor
  · rintro ⟨x, hx, hpx⟩
    obtain ⟨k, hk, hxk⟩ := List.mem_iff_getElem.mp hx
    have hk2 : k < hs := hlen ▸ hk
    refine ⟨i + 1 + k, by omega, by omega, ?_⟩
    rw [← hget k hk2, List.getD_eq_getElem _ _ hk, hxk]
    exact hpx
  · rintro ⟨j, h1, h2, h3⟩
    have hki : j - (i + 1) < (((series.drop (i + 1)).take hs)).length := by omega
    refine ⟨((series.drop (i + 1)).take hs)[j - (i + 1)], List.getElem_mem _, ?_⟩
    rw [← List.getD_eq_getElem _ dpt hki, hget _ (by omega)]
    have hj : i + 1 + (j - (i + 1)) = j := by omega
    rw [hj]
    exact h3

/-- Claim C5: the ground-truth labels of an evaluated index are exactly
"some sample among indices `i+1 .. i+horizonSteps` is below `low`"
(respectively above `high`), `trueEvent` is their disjunction, and the loop
body classifies the baseline and the improved decision at `i` against the
same `trueEvent` label. -/
theorem claim_C5 (hs i : ℕ) (h : i + hs < series.length) :
    (trueHypoOf series low hs i = true ↔
      ∃ j, i + 1 ≤ j ∧ j ≤ i + hs ∧ (series.getD j dpt).bg < low) ∧
    (trueHyperOf series high hs i = true ↔
      ∃ j, i + 1 ≤ j ∧ j ≤ i + hs ∧ high < (series.getD j dpt).bg) ∧
    trueEventOf series low high hs i
      = (trueHypoOf series low hs i || trueHyperOf series high hs i) ∧
    (∀ s : BtState,
      (btStep series low high horizonMin hs s i).baseTP =
        s.baseTP + (if baseAlertOf series low high horizonMin i &&
          trueEventOf series low high hs i then 1 else 0) ∧
      (btStep series low high horizonMin hs s i).impTP =
        s.impTP + (if (impStep series low high horizonMin s.imp i).2 &&
          trueEventOf series low high hs i then 1 else 0)) := by
  refine ⟨?_, ?_, rfl, fun s => ⟨rfl, rfl⟩⟩
  · unfold trueHypoOf
    rw [slice_any_iff series _ hs i h]
    simp
  · unfold trueHyperOf
    rw [slice_any_iff series _ hs i h]
    simp

/-- Witness for C5: on the constant 150 mg/dL series with `horizonSteps = 6`
and `i = 10` the hypothesis holds and the ground-truth characterization is
available; no future sample is below 70, matching the absent label. -/
theorem claim_C5_witness :
    (10 + 6 < cs20.length) ∧
    (trueHypoOf cs20 70 6 10 = true ↔
      ∃ j, 10 + 1 ≤ j ∧ j ≤ 10 + 6 ∧ (cs20.getD j dpt).bg < 70) :=
  ⟨by rw [cs20_length_eq]; omega,
    (claim_C5 cs20 70 180 30 6 10 (by rw [cs20_length_eq]; omega)).1⟩

/-- Claim C8: every sample the synthetic generator emits has its value
clamped into `[40, 400]`, and the emitted timestamps are strictly
increasing, for every input and every draw of the random source. -/
theorem claim_C8 (rng : ℕ → ℝ) (startMs : ℝ) (days approxPoints : ℕ) :
    (∀ k : Fin (generateSyntheticSeries rng startMs days approxPoints).length,
      40 ≤ ((generateSyntheticSeries rng startMs days approxPoints).get k).bg ∧
      ((generateSyntheticSeries rng startMs days approxPoints).get k).bg ≤ 400) ∧
    List.Pairwise (fun a b => a.tMs < b.tMs)
      (generateSyntheticSeries rng startMs days approxPoints) := by
  constructor
  · intro k
    have hk := k.isLt
    simp only [generateSyntheticSeries, List.length_map, List.length_range] at hk
    have : ((generateSyntheticSeries rng startMs days approxPoints).get k).bg =
        max 40 (min 400 (synBgRaw rng days approxPoints (k : ℕ))) := by
      simp [generateSyntheticSeries]
    rw [this]
    constructor
    · exact le_max_left _ _
    · exact max_le (by norm_num) (min_le_left _ _)
  · unfold generateSyntheticSeries
    rw [List.pairwise_map]
    have hstep : 0 < stepMinGen days approxPoints :=
      lt_of_lt_of_le (by norm_num) (le_max_left 5 _)
    refine List.Pairwise.imp ?_ (List.pairwise_lt_range _)
    intro a b hab
    simp only
    have hmul : a * stepMinGen days approxPoints < b * stepMinGen days approxPoints :=
      Nat.mul_lt_mul_of_lt_of_le hab le_rfl hstep
    have hcast : ((a * stepMinGen days approxPoints : ℕ) : ℝ) <
        ((b * stepMinGen days approxPoints : ℕ) : ℝ) := by exact_mod_cast hmul
    have := mul_lt_mul_of_pos_right hcast (by norm_num : (0 : ℝ) < 60000)
    linarith

/-- Counterexample to C9 as stated: at `peakMinute = 0` the claim would
demand `curve(1, 0, 0) = 1` (since `elapsedMinutes == peakMinute` and
`peakRise = 1 > 0`), but the curve evaluates to 0 there. -/
theorem claim_C9_counterexample :
    (0 : ℝ) < 1 ∧ absorptionDelta 1 0 0 = 0 ∧ absorptionDelta 1 0 0 ≠ 1 := by
  refine ⟨by norm_num, ?_, ?_⟩ <;> simp [absorptionDelta]

/-- Claim C9 (amended): the absorption curve is
`peakRise * x * exp(1 - x)` with `x = elapsedMinutes / max(1, peakMinute)`;
it is 0 at `elapsedMinutes = 0`, and for any `peakRise > 0` and any
`peakMinute >= 1` it equals exactly `peakRise` at
`elapsedMinutes = peakMinute`. -/
theorem claim_C9 (peakRise peakMin : ℝ) :
    absorptionDelta peakRise 0 peakMin = 0 ∧
    (0 < peakRise → 1 ≤ peakMin → absorptionDelta peakRise peakMin peakMin = peakRise) := by
  constructor
  · simp [absorptionDelta]
  · intro hpr hpm
    unfold absorptionDelta
    rw [max_eq_right hpm, div_self (by linarith)]
    simp [Real.exp_zero]

/-- Witness for C9: at `peakRise = 2` and `peakMinute = 45` the curve is 0
at onset and exactly 2 at its peak minute. -/
theorem claim_C9_witness :
    absorptionDelta 2 0 45 = 0 ∧ absorptionDelta 2 45 45 = 2 :=
  ⟨(claim_C9 2 45).1, (claim_C9 2 45).2 (by norm_num) (by norm_num)⟩
